import Mathlib

/-!
Shallow embedding of the perpetual-futures position ledger from
`src/smart contract/sources/simple_wallet.move`, module `My_module::perp_core`.

Move's unsigned integer types are modelled as `Nat` with explicit bound checks:
every `u64`/`u128` operation that can abort in Move (overflow, underflow,
division by zero, narrowing cast) is modelled as a checked operation returning
`Except Err`, with `Err.arithmetic` standing for Move's untyped arithmetic
abort.  Typed aborts (`error::not_found`, `error::invalid_argument`, ...) are
modelled by the corresponding `Err` constructors carrying the module's error
code.  The Aptos `Table<address, Position>` is modelled as a map
`Nat → Option Position` (addresses as `Nat`), which matches the table's
unique-key semantics.  An aborted call leaves on-chain state unchanged, so an
`Except.error` result carries no successor state.
-/

namespace PerpCore

/-- Bound `2^64`, the exclusive upper bound of Move's `u64`. -/
def U64 : Nat := 2 ^ 64

/-- Bound `2^128`, the exclusive upper bound of Move's `u128`. -/
def U128 : Nat := 2 ^ 128

/-- Move abort reasons: the typed `std::error` categories used by the module
(each carrying the module's abort code) plus the untyped arithmetic abort. -/
inductive Err where
  | alreadyExists : Nat → Err
  | notFound : Nat → Err
  | invalidArgument : Nat → Err
  | permissionDenied : Nat → Err
  | invalidState : Nat → Err
  | arithmetic : Err
deriving Repr, DecidableEq

/-- Error codes of `My_module::perp_core`. -/
def E_PAIR_EXISTS : Nat := 1
def E_PAIR_NOT_FOUND : Nat := 2
def E_POS_EXISTS : Nat := 3
def E_POS_NOT_FOUND : Nat := 4
def E_BAD_SIDE : Nat := 5
def E_BAD_QTY : Nat := 6
def E_BAD_LEV : Nat := 7
def E_BAD_MARGIN : Nat := 8
def E_NOT_AUTH : Nat := 9
def E_UNSAFE : Nat := 10

/-- Checked `u64` result: aborts (arithmetic) when the value overflows `u64`.
Also models the narrowing cast `as u64`. -/
def chk64 (x : Nat) : Except Err Nat :=
  if x < U64 then .ok x else .error .arithmetic

/-- Checked `u128` result: aborts (arithmetic) when the value overflows `u128`. -/
def chk128 (x : Nat) : Except Err Nat :=
  if x < U128 then .ok x else .error .arithmetic

/-- Move unsigned subtraction: aborts (arithmetic) on underflow. -/
def subChk (a b : Nat) : Except Err Nat :=
  if b ≤ a then .ok (a - b) else .error .arithmetic

/-- Move unsigned division: aborts (arithmetic) on division by zero. -/
def divChk (a b : Nat) : Except Err Nat :=
  if b = 0 then .error .arithmetic else .ok (a / b)

/-- Move `struct Position` (`side`: 0 = LONG, 1 = SHORT). -/
structure Position where
  side : Nat
  size : Nat
  entry_px : Nat
  margin : Nat
  lev_bps : Nat
  funding_index_open : Nat
deriving Repr, DecidableEq

/-- Move `struct PairConfig`. -/
structure PairConfig where
  max_lev_bps : Nat
  init_margin_bps : Nat
  maint_margin_bps : Nat
  max_funding_bps_hour : Nat
deriving Repr, DecidableEq

/-- Move `struct Pair`: per-market configuration and mutable state.  The
`positions` table keyed by address is modelled as a map from `Nat`
(addresses) to `Option Position`. -/
structure Pair where
  cfg : PairConfig
  mark_px : Nat
  cum_funding_bps : Nat
  last_funding_ts : Nat
  oracle : Nat
  vrf_oracle : Nat
  positions : Nat → Option Position

/-- Operation `table::contains` on the positions map. -/
def tContains (t : Nat → Option Position) (a : Nat) : Bool :=
  (t a).isSome

/-- Operation `table::add` / `table::borrow_mut` update on the positions map. -/
def tAdd (t : Nat → Option Position) (a : Nat) (v : Position) :
    Nat → Option Position :=
  fun x => if x = a then some v else t x

/-- Operation `table::remove` on the positions map. -/
def tRemove (t : Nat → Option Position) (a : Nat) : Nat → Option Position :=
  fun x => if x = a then none else t x

/-! Core math: the `inline fun`s of the module. -/

/-- Function `notional(px, size) = (px as u128) * (size as u128)` with the `u128`
overflow check. -/
def notional (px size : Nat) : Except Err Nat :=
  chk128 (px * size)

/-- Function `required_init_margin`: larger of `notional / leverage` and
`notional * init_bps / 10_000` (`u128` division and multiplication). -/
def required_init_margin (notional_q lev_bps init_bps : Nat) :
    Except Err Nat := do
  let by_lev ← divChk notional_q lev_bps
  let prod ← chk128 (notional_q * init_bps)
  let by_floor := prod / 10000
  .ok (if by_lev > by_floor then by_lev else by_floor)

/-- Function `maint_margin(notional, maint_bps) = notional * maint_bps / 10_000`. -/
def maint_margin (notional_q maint_bps : Nat) : Except Err Nat := do
  let prod ← chk128 (notional_q * maint_bps)
  .ok (prod / 10000)

/-- Function `funding_pnl`: the absolute funding-index movement times notional over
10_000.  The `side` argument is accepted but, as in the source, unused. -/
def funding_pnl (px size side cum_now cum_open : Nat) : Except Err Nat := do
  let n ← notional px size
  let delta_bps_hours := if cum_now > cum_open then cum_now - cum_open
                         else cum_open - cum_now
  let raw ← chk128 (n * delta_bps_hours)
  .ok (raw / 10000)

/-- Function `price_pnl`: the absolute price movement times size.  The `side`
argument is accepted but, as in the source, unused. -/
def price_pnl (cur_px entry_px size side : Nat) : Except Err Nat := do
  let diff := if cur_px > entry_px then cur_px - entry_px else entry_px - cur_px
  chk128 (diff * size)

/-- Function `health(p, pos) = margin + price_pnl + funding_pnl - maint_margin`, all in
checked `u128` arithmetic (the final subtraction aborts on underflow). -/
def health (p : Pair) (pos : Position) : Except Err Nat := do
  let n ← notional p.mark_px pos.size
  let mm ← maint_margin n p.cfg.maint_margin_bps
  let a ← price_pnl p.mark_px pos.entry_px pos.size pos.side
  let b ← funding_pnl p.mark_px pos.size pos.side p.cum_funding_bps
            pos.funding_index_open
  let s1 ← chk128 (pos.margin + a)
  let s2 ← chk128 (s1 + b)
  subChk s2 mm

/-! Entry functions.

Each entry function takes the stored `Pair` as an `Option Pair` (the
`exists<Pair>(pa)` check) and returns the successor `Pair` on success.
`pair_object_address` collapses every pair id of one admin to the admin's
address, so a single optional `Pair` is the whole relevant store. -/

/-- Entry `create_pair`: aborts `already_exists` when a `Pair` is already stored at
the derived address (`pairExists`), otherwise stores a fresh `Pair` with
`cum_funding_bps = 0` and `last_funding_ts = now_ts`. -/
def create_pair (pairExists : Bool) (max_lev_bps init_margin_bps
    maint_margin_bps max_funding_bps_hour oracle vrf_oracle init_mark_px
    now_ts : Nat) : Except Err Pair :=
  if pairExists then .error (.alreadyExists E_PAIR_EXISTS)
  else .ok
    { cfg := { max_lev_bps, init_margin_bps, maint_margin_bps,
               max_funding_bps_hour }
      mark_px := init_mark_px
      cum_funding_bps := 0
      last_funding_ts := now_ts
      oracle := oracle
      vrf_oracle := vrf_oracle
      positions := fun _ => none }

/-- Entry `set_mark_price`: `not_found` on missing pair, `permission_denied` unless
`caller == p.oracle`, otherwise overwrites the mark price. -/
def set_mark_price (st : Option Pair) (caller new_px : Nat) :
    Except Err Pair :=
  match st with
  | none => .error (.notFound E_PAIR_NOT_FOUND)
  | some p =>
    if caller = p.oracle then .ok { p with mark_px := new_px }
    else .error (.permissionDenied E_NOT_AUTH)

/-- Entry `push_funding`: `not_found` on missing pair, `permission_denied` unless
`caller == p.vrf_oracle`.  Clamps `dt` at 0, returns unchanged on `dt = 0`;
otherwise computes `span = cap*2+1` (checked `u64`), the seed residue `r`,
and the unsigned subtraction `r - cap` (which aborts when `r < cap`), then
accrues `(r - cap) * hours` over `hours = dt / 3600` whole hours.  The
`funding_bps` parameter is accepted but, as in the source, unused. -/
def push_funding (st : Option Pair) (caller funding_bps vrf_seed_u128
    now_ts : Nat) : Except Err Pair :=
  match st with
  | none => .error (.notFound E_PAIR_NOT_FOUND)
  | some p =>
    if caller = p.vrf_oracle then
      let dt := if now_ts > p.last_funding_ts then now_ts - p.last_funding_ts
                else 0
      if dt = 0 then .ok p
      else do
        let cap := p.cfg.max_funding_bps_hour
        let span ← chk64 (cap * 2 + 1)
        let r ← chk64 (vrf_seed_u128 % span)
        let signed ← subChk r cap
        let hours := dt / 3600
        if hours > 0 then do
          let accr ← chk128 (signed * hours)
          let cum ← chk128 (p.cum_funding_bps + accr)
          let adv ← chk64 (hours * 3600)
          let ts ← chk64 (p.last_funding_ts + adv)
          .ok { p with cum_funding_bps := cum, last_funding_ts := ts }
        else .ok p
    else .error (.permissionDenied E_NOT_AUTH)

/-- Entry `open_position`: argument checks in source order (`side`, `size`, pair
existence, leverage, fresh position, margin requirement); on success stores a
new position at the current mark price and funding index.  The `entry_px`
parameter is accepted but, as in the source, ignored in favour of the mark
price. -/
def open_position (st : Option Pair) (user size side lev_bps margin
    entry_px : Nat) : Except Err Pair :=
  if ¬ side < 2 then .error (.invalidArgument E_BAD_SIDE)
  else if ¬ size > 0 then .error (.invalidArgument E_BAD_QTY)
  else match st with
  | none => .error (.notFound E_PAIR_NOT_FOUND)
  | some pair =>
    if ¬ (lev_bps > 0 ∧ lev_bps ≤ pair.cfg.max_lev_bps) then
      .error (.invalidArgument E_BAD_LEV)
    else if tContains pair.positions user then
      .error (.alreadyExists E_POS_EXISTS)
    else do
      let n ← notional pair.mark_px size
      let req ← required_init_margin n lev_bps pair.cfg.init_margin_bps
      if margin ≥ req then
        let pos : Position :=
          { side, size, entry_px := pair.mark_px, margin, lev_bps,
            funding_index_open := pair.cum_funding_bps }
        .ok { pair with positions := tAdd pair.positions user pos }
      else .error (.invalidArgument E_BAD_MARGIN)

/-- Entry `close_position`: `not_found` on missing pair or position,
`invalid_argument` on `size_to_close == 0` or `size_to_close > pos.size`;
otherwise computes the pro-rata `margin_share` (`u128` multiply, divide,
narrowing cast to `u64`), the PnL of the closed portion, asserts
`equity_released >= 0`, shrinks the position and removes it when its size
reaches 0.  Returns the successor `Pair` with `equity_released`. -/
def close_position (st : Option Pair) (user size_to_close : Nat) :
    Except Err (Pair × Nat) :=
  match st with
  | none => .error (.notFound E_PAIR_NOT_FOUND)
  | some pair =>
    match pair.positions user with
    | none => .error (.notFound E_POS_NOT_FOUND)
    | some pos =>
      if ¬ size_to_close > 0 then .error (.invalidArgument E_BAD_QTY)
      else if ¬ pos.size ≥ size_to_close then
        .error (.invalidArgument E_BAD_QTY)
      else do
        let prod ← chk128 (pos.margin * size_to_close)
        let q ← divChk prod pos.size
        let margin_share ← chk64 q
        let pnl_price ← price_pnl pair.mark_px pos.entry_px size_to_close
          pos.side
        let pnl_funding ← funding_pnl pair.mark_px size_to_close pos.side
          pair.cum_funding_bps pos.funding_index_open
        let pnl_total ← chk128 (pnl_price + pnl_funding)
        let equity_released ← chk128 (margin_share + pnl_total)
        if equity_released ≥ 0 then do
          let newSize ← subChk pos.size size_to_close
          let newMargin ← subChk pos.margin margin_share
          let positions' := tAdd pair.positions user
            { pos with size := newSize, margin := newMargin }
          if newSize = 0 then
            .ok ({ pair with positions := tRemove positions' user },
                 equity_released)
          else .ok ({ pair with positions := positions' }, equity_released)
        else .error (.invalidState E_UNSAFE)

/-- Entry `liquidate`: `not_found` on missing pair or position, computes `health`
(propagating its abort), then asserts `h < 0` before deleting the position
and computing the full-position equity.  `h` is a `u128` value, so the
eligibility test compares an unsigned value against 0. -/
def liquidate (st : Option Pair) (victim : Nat) : Except Err (Pair × Nat) :=
  match st with
  | none => .error (.notFound E_PAIR_NOT_FOUND)
  | some pair =>
    match pair.positions victim with
    | none => .error (.notFound E_POS_NOT_FOUND)
    | some pos => do
      let hlt ← health pair pos
      if hlt < 0 then do
        let pnl_price ← price_pnl pair.mark_px pos.entry_px pos.size pos.side
        let pnl_funding ← funding_pnl pair.mark_px pos.size pos.side
          pair.cum_funding_bps pos.funding_index_open
        let s1 ← chk128 (pos.margin + pnl_price)
        let equity ← chk128 (s1 + pnl_funding)
        .ok ({ pair with positions := tRemove pair.positions victim }, equity)
      else .error (.invalidState E_UNSAFE)

/-- The state after an entry call: the successor state on success, the
unchanged input state on abort (Move aborts leave no partial mutation). -/
def applyRes (p : Pair) (r : Except Err Pair) : Pair :=
  match r with
  | .ok q => q
  | .error _ => p

/-! Concrete example states. -/

/-- Example configuration: 50x max leverage, 20% initial margin, 10%
maintenance margin, funding capped at 50 bps/hour. -/
def cfgEx : PairConfig :=
  { max_lev_bps := 5000, init_margin_bps := 2000, maint_margin_bps := 1000,
    max_funding_bps_hour := 50 }

/-- A long position of 10 lots opened at price 100 with margin 50 — under
the 10% maintenance margin (100) with zero PnL, so its mathematical health
is 50 - 100 = -50 < 0. -/
def posUnder : Position :=
  { side := 0, size := 10, entry_px := 100, margin := 50, lev_bps := 5000,
    funding_index_open := 0 }

/-- A market at mark price 100 holding `posUnder` for account 7.  Oracle is
address 1, funding oracle address 2. -/
def pairUnder : Pair :=
  { cfg := cfgEx, mark_px := 100, cum_funding_bps := 0, last_funding_ts := 0,
    oracle := 1, vrf_oracle := 2,
    positions := fun a => if a = 7 then some posUnder else none }

/-- The same market with no positions, used for funding-push examples. -/
def pairFund : Pair :=
  { cfg := cfgEx, mark_px := 100, cum_funding_bps := 0, last_funding_ts := 0,
    oracle := 1, vrf_oracle := 2, positions := fun _ => none }

/-- State `pairFund` after an authorized funding push with seed 77 at `now = 7200`:
residue `77 % 101 = 77`, rate `77 - 50 = 27`, 2 whole hours, so the index
grows by 54 and the timestamp advances to 7200. -/
def pairFundAfter : Pair :=
  { pairFund with cum_funding_bps := 54, last_funding_ts := 7200 }

/-- A position of size 3 with margin 7, the pro-rata close example. -/
def posClose : Position :=
  { side := 0, size := 3, entry_px := 100, margin := 7, lev_bps := 5000,
    funding_index_open := 0 }

/-- A market at mark price 100 holding `posClose` for account 7. -/
def pairClose : Pair :=
  { cfg := cfgEx, mark_px := 100, cum_funding_bps := 0, last_funding_ts := 0,
    oracle := 1, vrf_oracle := 2,
    positions := fun a => if a = 7 then some posClose else none }

/-- State `pairClose` after closing 1 of the 3 lots: margin share
`floor(7 * 1 / 3) = 2`, so the position keeps size 2 and margin 5. -/
def pairCloseAfter : Pair :=
  { pairClose with positions := tAdd pairClose.positions 7 ⟨0, 2, 100, 5, 5000, 0⟩ }

/-- State `pairFund` after account 9 opens a long position of 100 lots at mark
price 100 with margin 2000 (exactly the required initial margin). -/
def pairOpened : Pair :=
  { pairFund with positions := tAdd pairFund.positions 9 ⟨0, 100, 100, 2000, 5000, 0⟩ }

/-! Proof support. -/

@[simp] lemma ok_bind {α β : Type} (a : α) (f : α → Except Err β) :
    (Except.ok a >>= f) = f a := rfl

@[simp] lemma error_bind {α β : Type} (e : Err) (f : α → Except Err β) :
    ((Except.error e : Except Err α) >>= f) = Except.error e := rfl

lemma chk64_ok {x y : Nat} (h : chk64 x = .ok y) : y = x ∧ x < U64 := by
  unfold chk64 at h
  split at h
  · exact ⟨(Except.ok.injEq _ _).mp h.symm, by assumption⟩
  · exact absurd h (by simp)

lemma chk128_ok {x y : Nat} (h : chk128 x = .ok y) : y = x ∧ x < U128 := by
  unfold chk128 at h
  split at h
  · exact ⟨(Except.ok.injEq _ _).mp h.symm, by assumption⟩
  · exact absurd h (by simp)

lemma chk64_of_lt {x : Nat} (h : x < U64) : chk64 x = .ok x := by
  unfold chk64
  simp [h]

lemma chk128_of_lt {x : Nat} (h : x < U128) : chk128 x = .ok x := by
  unfold chk128
  simp [h]

lemma subChk_ok {a b y : Nat} (h : subChk a b = .ok y) :
    y = a - b ∧ b ≤ a := by
  unfold subChk at h
  split at h
  · exact ⟨(Except.ok.injEq _ _).mp h.symm, by assumption⟩
  · exact absurd h (by simp)

lemma subChk_of_le {a b : Nat} (h : b ≤ a) : subChk a b = .ok (a - b) := by
  unfold subChk
  simp [h]

lemma subChk_of_lt {a b : Nat} (h : a < b) :
    subChk a b = .error .arithmetic := by
  unfold subChk
  simp [Nat.not_le_of_lt h]

lemma divChk_ok {a b y : Nat} (h : divChk a b = .ok y) :
    y = a / b ∧ b ≠ 0 := by
  unfold divChk at h
  split at h
  · exact absurd h (by simp)
  · exact ⟨(Except.ok.injEq _ _).mp h.symm, by assumption⟩

lemma divChk_of_ne {a b : Nat} (h : b ≠ 0) : divChk a b = .ok (a / b) := by
  unfold divChk
  simp [h]

/-- Success characterization of `open_position`: every guard passed and the
successor state is the input pair with the fresh position added at the
current mark price and funding index. -/
lemma open_position_ok {pair pair' : Pair} {user size side lev margin
    epx : Nat}
    (hok : open_position (some pair) user size side lev margin epx
      = .ok pair') :
    ∃ n req, side < 2 ∧ 0 < size ∧ 0 < lev ∧ lev ≤ pair.cfg.max_lev_bps ∧
      pair.positions user = none ∧
      notional pair.mark_px size = .ok n ∧
      required_init_margin n lev pair.cfg.init_margin_bps = .ok req ∧
      req ≤ margin ∧
      pair' = { pair with positions := tAdd pair.positions user ⟨side, size, pair.mark_px, margin, lev, pair.cum_funding_bps⟩ } := by
  simp only [open_position] at hok
  split_ifs at hok with h1 h2 h3 h4
  cases hn : notional pair.mark_px size with
  | error e => rw [hn] at hok; simp at hok
  | ok n =>
    rw [hn] at hok
    simp only [ok_bind] at hok
    cases hreq : required_init_margin n lev pair.cfg.init_margin_bps with
    | error e => rw [hreq] at hok; simp at hok
    | ok req =>
      rw [hreq] at hok
      simp only [ok_bind] at hok
      split_ifs at hok with h5
      refine ⟨n, req, h1, h2, h3.1, h3.2, ?_, rfl, hreq, h5, ?_⟩
      · have h4' : ∀ x : Position, ¬ pair.positions user = some x := by
          simpa [tContains, Option.isSome_iff_exists] using h4
        cases hcase : pair.positions user with
        | none => rfl
        | some x => exact absurd hcase (h4' x)
      · exact ((Except.ok.injEq _ _).mp hok).symm

/-- Success characterization of `close_position`: the guards passed, the
released equity is the pro-rata margin share plus the (directionless) PnL of
the closed portion, the market scalars are untouched, and the position is
shrunk — removed exactly when its remaining size is 0. -/
lemma close_position_ok {pair pair' : Pair} {user stc eqr : Nat}
    {pos : Position}
    (hpos : pair.positions user = some pos)
    (hok : close_position (some pair) user stc = .ok (pair', eqr)) :
    0 < stc ∧ stc ≤ pos.size ∧
    eqr = pos.margin * stc / pos.size +
      ((if pair.mark_px > pos.entry_px then pair.mark_px - pos.entry_px else pos.entry_px - pair.mark_px) * stc +
       pair.mark_px * stc * (if pair.cum_funding_bps > pos.funding_index_open then pair.cum_funding_bps - pos.funding_index_open else pos.funding_index_open - pair.cum_funding_bps) / 10000) ∧
    pair'.cum_funding_bps = pair.cum_funding_bps ∧
    pair'.mark_px = pair.mark_px ∧
    pair'.positions user =
      (if pos.size - stc = 0 then none
       else some ⟨pos.side, pos.size - stc, pos.entry_px, pos.margin - pos.margin * stc / pos.size, pos.lev_bps, pos.funding_index_open⟩) := by
  simp only [close_position, hpos] at hok
  split_ifs at hok with hq1 hq2
  push_neg at hq1 hq2
  cases hprod : chk128 (pos.margin * stc) with
  | error e => rw [hprod] at hok; simp at hok
  | ok prod =>
    rw [hprod] at hok
    simp only [ok_bind] at hok
    obtain ⟨hprodv, -⟩ := chk128_ok hprod
    subst hprodv
    cases hdiv : divChk (pos.margin * stc) pos.size with
    | error e => rw [hdiv] at hok; simp at hok
    | ok q =>
      rw [hdiv] at hok
      simp only [ok_bind] at hok
      obtain ⟨hqv, -⟩ := divChk_ok hdiv
      subst hqv
      cases hms : chk64 (pos.margin * stc / pos.size) with
      | error e => rw [hms] at hok; simp at hok
      | ok ms =>
        rw [hms] at hok
        simp only [ok_bind] at hok
        obtain ⟨hmsv, -⟩ := chk64_ok hms
        subst hmsv
        cases hpp : price_pnl pair.mark_px pos.entry_px stc pos.side with
        | error e => rw [hpp] at hok; simp at hok
        | ok pp =>
          rw [hpp] at hok
          simp only [ok_bind] at hok
          have hppv : pp = (if pair.mark_px > pos.entry_px then pair.mark_px - pos.entry_px else pos.entry_px - pair.mark_px) * stc := by
            unfold price_pnl at hpp
            exact (chk128_ok hpp).1
          cases hpf : funding_pnl pair.mark_px stc pos.side pair.cum_funding_bps pos.funding_index_open with
          | error e => rw [hpf] at hok; simp at hok
          | ok pf =>
            rw [hpf] at hok
            simp only [ok_bind] at hok
            have hpfv : pf = pair.mark_px * stc * (if pair.cum_funding_bps > pos.funding_index_open then pair.cum_funding_bps - pos.funding_index_open else pos.funding_index_open - pair.cum_funding_bps) / 10000 := by
              unfold funding_pnl notional at hpf
              cases hn : chk128 (pair.mark_px * stc) with
              | error e => rw [hn] at hpf; simp at hpf
              | ok n =>
                rw [hn] at hpf
                simp only [ok_bind] at hpf
                obtain ⟨hnv, -⟩ := chk128_ok hn
                subst hnv
                cases hr : chk128 (pair.mark_px * stc * (if pair.cum_funding_bps > pos.funding_index_open then pair.cum_funding_bps - pos.funding_index_open else pos.funding_index_open - pair.cum_funding_bps)) with
                | error e => rw [hr] at hpf; simp at hpf
                | ok raw =>
                  rw [hr] at hpf
                  simp only [ok_bind] at hpf
                  obtain ⟨hrv, -⟩ := chk128_ok hr
                  subst hrv
                  exact ((Except.ok.injEq _ _).mp hpf).symm
            cases htot : chk128 (pp + pf) with
            | error e => rw [htot] at hok; simp at hok
            | ok tot =>
              rw [htot] at hok
              simp only [ok_bind] at hok
              obtain ⟨htotv, -⟩ := chk128_ok htot
              subst htotv
              cases heq : chk128 (pos.margin * stc / pos.size + (pp + pf)) with
              | error e => rw [heq] at hok; simp at hok
              | ok er =>
                rw [heq] at hok
                simp only [ok_bind] at hok
                obtain ⟨herv, -⟩ := chk128_ok heq
                subst herv
                rw [if_pos (Nat.zero_le _)] at hok
                have hszpos : 0 < pos.size := lt_of_lt_of_le hq1 hq2
                have hmsle : pos.margin * stc / pos.size ≤ pos.margin := by
                  calc pos.margin * stc / pos.size
                      ≤ pos.margin * pos.size / pos.size :=
                        Nat.div_le_div_right (Nat.mul_le_mul_left _ hq2)
                    _ = pos.margin := Nat.mul_div_cancel _ hszpos
                rw [subChk_of_le hq2, subChk_of_le hmsle] at hok
                simp only [ok_bind] at hok
                by_cases hz : pos.size - stc = 0
                · rw [if_pos hz] at hok
                  obtain ⟨hpair, heqr⟩ :=
                    Prod.mk.injEq .. ▸ (Except.ok.injEq _ _).mp hok
                  refine ⟨hq1, hq2, ?_, ?_, ?_, ?_⟩
                  · rw [← heqr, hppv, hpfv]
                  · rw [← hpair]
                  · rw [← hpair]
                  · rw [← hpair, if_pos hz]
                    simp [tRemove]
                · rw [if_neg hz] at hok
                  obtain ⟨hpair, heqr⟩ :=
                    Prod.mk.injEq .. ▸ (Except.ok.injEq _ _).mp hok
                  refine ⟨hq1, hq2, ?_, ?_, ?_, ?_⟩
                  · rw [← heqr, hppv, hpfv]
                  · rw [← hpair]
                  · rw [← hpair]
                  · rw [← hpair, if_neg hz]
                    simp [tAdd]

/-- Success characterization of `push_funding`: either nothing changed
(`dt = 0` or `hours = 0`), or at least one whole hour elapsed, the seed
residue was at least the cap (otherwise the unsigned subtraction aborts),
the index grew by `(r - cap) * hours` and the timestamp advanced by
`hours * 3600`. -/
lemma push_funding_ok {p p' : Pair} {caller fb seed now : Nat}
    (hok : push_funding (some p) caller fb seed now = .ok p') :
    (p' = p ∧ (now - p.last_funding_ts) / 3600 = 0) ∨
    (p.last_funding_ts < now ∧
     0 < (now - p.last_funding_ts) / 3600 ∧
     p.cfg.max_funding_bps_hour ≤ seed % (p.cfg.max_funding_bps_hour * 2 + 1) ∧
     p'.cum_funding_bps = p.cum_funding_bps +
       (seed % (p.cfg.max_funding_bps_hour * 2 + 1) - p.cfg.max_funding_bps_hour) * ((now - p.last_funding_ts) / 3600) ∧
     p'.last_funding_ts = p.last_funding_ts + ((now - p.last_funding_ts) / 3600) * 3600 ∧
     p'.mark_px = p.mark_px ∧ p'.cfg = p.cfg ∧ p'.positions = p.positions) := by
  simp only [push_funding] at hok
  by_cases hauth : caller = p.vrf_oracle
  case neg => rw [if_neg hauth] at hok; simp at hok
  rw [if_pos hauth] at hok
  by_cases hlt : now > p.last_funding_ts
  case neg =>
    rw [if_neg hlt] at hok
    simp only [if_pos rfl] at hok
    refine Or.inl ⟨((Except.ok.injEq _ _).mp hok).symm, ?_⟩
    rw [Nat.sub_eq_zero_of_le (le_of_not_lt hlt)]
  rw [if_pos hlt] at hok
  by_cases hdt : now - p.last_funding_ts = 0
  case pos =>
    rw [if_pos hdt] at hok
    exact Or.inl ⟨((Except.ok.injEq _ _).mp hok).symm, by rw [hdt]⟩
  · rw [if_neg hdt] at hok
    cases hspan : chk64 (p.cfg.max_funding_bps_hour * 2 + 1) with
    | error e => rw [hspan] at hok; simp at hok
    | ok span =>
      rw [hspan] at hok
      simp only [ok_bind] at hok
      obtain ⟨hspanv, -⟩ := chk64_ok hspan
      subst hspanv
      cases hr : chk64 (seed % (p.cfg.max_funding_bps_hour * 2 + 1)) with
      | error e => rw [hr] at hok; simp at hok
      | ok r =>
        rw [hr] at hok
        simp only [ok_bind] at hok
        obtain ⟨hrv, -⟩ := chk64_ok hr
        subst hrv
        cases hsg : subChk (seed % (p.cfg.max_funding_bps_hour * 2 + 1)) p.cfg.max_funding_bps_hour with
        | error e => rw [hsg] at hok; simp at hok
        | ok signed =>
          rw [hsg] at hok
          simp only [ok_bind] at hok
          obtain ⟨hsgv, hcap⟩ := subChk_ok hsg
          subst hsgv
          by_cases hh : (now - p.last_funding_ts) / 3600 > 0
          · rw [if_pos hh] at hok
            cases haccr : chk128 ((seed % (p.cfg.max_funding_bps_hour * 2 + 1) - p.cfg.max_funding_bps_hour) * ((now - p.last_funding_ts) / 3600)) with
            | error e => rw [haccr] at hok; simp at hok
            | ok accr =>
              rw [haccr] at hok
              simp only [ok_bind] at hok
              obtain ⟨haccrv, -⟩ := chk128_ok haccr
              subst haccrv
              cases hcum : chk128 (p.cum_funding_bps + (seed % (p.cfg.max_funding_bps_hour * 2 + 1) - p.cfg.max_funding_bps_hour) * ((now - p.last_funding_ts) / 3600)) with
              | error e => rw [hcum] at hok; simp at hok
              | ok cum =>
                rw [hcum] at hok
                simp only [ok_bind] at hok
                obtain ⟨hcumv, -⟩ := chk128_ok hcum
                subst hcumv
                cases hadv : chk64 ((now - p.last_funding_ts) / 3600 * 3600) with
                | error e => rw [hadv] at hok; simp at hok
                | ok adv =>
                  rw [hadv] at hok
                  simp only [ok_bind] at hok
                  obtain ⟨hadvv, -⟩ := chk64_ok hadv
                  subst hadvv
                  cases hts : chk64 (p.last_funding_ts + (now - p.last_funding_ts) / 3600 * 3600) with
                  | error e => rw [hts] at hok; simp at hok
                  | ok ts =>
                    rw [hts] at hok
                    simp only [ok_bind] at hok
                    obtain ⟨htsv, -⟩ := chk64_ok hts
                    subst htsv
                    have hpair := ((Except.ok.injEq _ _).mp hok)
                    refine Or.inr ⟨hlt, hh, hcap, ?_, ?_, ?_, ?_, ?_⟩ <;>
                      rw [← hpair]
          · rw [if_neg hh] at hok
            exact Or.inl ⟨((Except.ok.injEq _ _).mp hok).symm,
              Nat.eq_zero_of_not_pos hh⟩

/-- Lemma: `liquidate` can never return successfully: when `health` aborts the abort
propagates, and when it returns a value `h : u128` the eligibility test
`h < 0` is false for every unsigned `h`. -/
lemma liquidate_no_ok (st : Option Pair) (victim : Nat) (pr : Pair × Nat) :
    liquidate st victim ≠ .ok pr := by
  intro hok
  match st with
  | none => simp [liquidate] at hok
  | some pair =>
    cases hpv : pair.positions victim with
    | none => simp only [liquidate, hpv] at hok; simp at hok
    | some pos =>
      simp only [liquidate, hpv] at hok
      cases hh : health pair pos with
      | error e => rw [hh] at hok; simp at hok
      | ok hval =>
        rw [hh] at hok
        simp only [ok_bind] at hok
        rw [if_neg (Nat.not_lt_zero hval)] at hok
        simp at hok

/-- When the maintenance margin exceeds margin plus both PnL magnitudes, the
final unsigned subtraction in `health` underflows and the computation aborts
with the untyped arithmetic error. -/
lemma health_underflow {pair : Pair} {pos : Position} {n mm a b : Nat}
    (hn : notional pair.mark_px pos.size = .ok n)
    (hmm : maint_margin n pair.cfg.maint_margin_bps = .ok mm)
    (ha : price_pnl pair.mark_px pos.entry_px pos.size pos.side = .ok a)
    (hb : funding_pnl pair.mark_px pos.size pos.side pair.cum_funding_bps
      pos.funding_index_open = .ok b)
    (hlt : pos.margin + a + b < mm) :
    health pair pos = .error .arithmetic := by
  have hmm128 : mm < U128 := by
    unfold maint_margin at hmm
    cases hprod : chk128 (n * pair.cfg.maint_margin_bps) with
    | error e => rw [hprod] at hmm; simp at hmm
    | ok prod =>
      rw [hprod] at hmm
      simp only [ok_bind] at hmm
      obtain ⟨hpv, hplt⟩ := chk128_ok hprod
      subst hpv
      have hmmv := (Except.ok.injEq _ _).mp hmm
      rw [← hmmv]
      exact lt_of_le_of_lt (Nat.div_le_self _ _) hplt
  unfold health
  rw [hn]
  simp only [ok_bind]
  rw [hmm]
  simp only [ok_bind]
  rw [ha]
  simp only [ok_bind]
  rw [hb]
  simp only [ok_bind]
  rw [chk128_of_lt (show pos.margin + a < U128 by omega)]
  simp only [ok_bind]
  rw [chk128_of_lt (show pos.margin + a + b < U128 by omega)]
  simp only [ok_bind]
  exact subChk_of_lt hlt

/-- A `health` abort propagates out of `liquidate` unchanged. -/
lemma liquidate_of_health_err {pair : Pair} {pos : Position} {victim : Nat}
    {e : Err} (hpos : pair.positions victim = some pos)
    (hh : health pair pos = .error e) :
    liquidate (some pair) victim = .error e := by
  simp only [liquidate, hpos]
  rw [hh]
  simp

/-! Claim theorems. -/

/-- C1: the claimed liquidation gate — "`liquidate` deletes the position
when `health < 0`" — fails on the code.  At the concrete market `pairUnder`
account 7 holds a position with margin 50, zero PnL and maintenance margin
100, so its health in the claimed signed sense is 50 - 100 = -50 < 0 and
liquidation should succeed; instead the unsigned `u128` subtraction in
`health` underflows and the call aborts with the untyped arithmetic error,
leaving the position in place. -/
theorem c1_liquidate_aborts_on_underwater_position :
    pairUnder.positions 7 = some posUnder ∧
    posUnder.margin + 0 + 0 < 100 ∧
    maint_margin 1000 pairUnder.cfg.maint_margin_bps = .ok 100 ∧
    health pairUnder posUnder = .error .arithmetic ∧
    liquidate (some pairUnder) 7 = .error .arithmetic :=
  ⟨rfl, by decide, rfl, rfl, rfl⟩

/-- C2: the claimed symmetric signed funding rate fails on the code.  With
cap 50 and seed 0 the residue `0 % 101 = 0` is below the cap, so the claim
says the rate is `0 - 50 = -50` and a 2-hour push should add `-100` to the
index; instead the unsigned `u128` subtraction `r - cap` underflows and the
authorized push aborts with the untyped arithmetic error. -/
theorem c2_push_funding_aborts_on_low_residue :
    0 % (pairFund.cfg.max_funding_bps_hour * 2 + 1) <
      pairFund.cfg.max_funding_bps_hour ∧
    push_funding (some pairFund) 2 0 0 7200 = .error .arithmetic :=
  ⟨by decide, rfl⟩

/-- C8: for an existing market, `set_mark_price` from any caller other than
the registered price oracle fails with `permission_denied(E_NOT_AUTH)`, and
`push_funding` from any caller other than the registered funding oracle
fails with `permission_denied(E_NOT_AUTH)`; each hypothesis is only the one
address comparison that operation performs, so cross-role callers (the
funding oracle calling `set_mark_price`, the price oracle calling
`push_funding`) are covered.  An abort leaves no partial mutation, so the
market state is unchanged. -/
theorem c8_oracle_authorization (p : Pair) (caller px fb seed now : Nat) :
    (caller ≠ p.oracle →
      set_mark_price (some p) caller px =
        .error (.permissionDenied E_NOT_AUTH) ∧
      applyRes p (set_mark_price (some p) caller px) = p) ∧
    (caller ≠ p.vrf_oracle →
      push_funding (some p) caller fb seed now =
        .error (.permissionDenied E_NOT_AUTH) ∧
      applyRes p (push_funding (some p) caller fb seed now) = p) := by
  constructor
  · intro hno
    have h1 : set_mark_price (some p) caller px =
        .error (.permissionDenied E_NOT_AUTH) := by
      simp [set_mark_price, hno]
    exact ⟨h1, by rw [h1]; rfl⟩
  · intro hnv
    have h2 : push_funding (some p) caller fb seed now =
        .error (.permissionDenied E_NOT_AUTH) := by
      simp [push_funding, hnv]
    exact ⟨h2, by rw [h2]; rfl⟩

/-- Witness for C8 at a concrete market, exercising the cross-role cases:
the funding oracle (address 2) calling `set_mark_price` and the price
oracle (address 1) calling `push_funding` are both rejected. -/
theorem c8_oracle_authorization_witness :
    (set_mark_price (some pairFund) 2 123 =
       .error (.permissionDenied E_NOT_AUTH) ∧
     applyRes pairFund (set_mark_price (some pairFund) 2 123) = pairFund) ∧
    (push_funding (some pairFund) 1 0 0 3600 =
       .error (.permissionDenied E_NOT_AUTH) ∧
     applyRes pairFund (push_funding (some pairFund) 1 0 0 3600) =
       pairFund) :=
  ⟨(c8_oracle_authorization pairFund 2 123 0 0 3600).1 (by decide),
   (c8_oracle_authorization pairFund 1 0 0 0 3600).2 (by decide)⟩

/-- C9: the entry `liquidate` never returns successfully.  When the position's margin
plus both (unsigned) PnL magnitudes falls below the maintenance margin the
unsigned subtraction in `health` underflows and the call aborts with the
untyped arithmetic error; in every other case `health` returns an unsigned
`u128`, the eligibility test `h < 0` is false, and the call fails with
`invalid_state(E_UNSAFE)` — so no call ever removes a position. -/
theorem c9_liquidate_never_succeeds :
    (∀ (st : Option Pair) (victim : Nat) (pr : Pair × Nat),
      liquidate st victim ≠ .ok pr) ∧
    (∀ (pair : Pair) (victim : Nat) (pos : Position) (n mm a b : Nat),
      pair.positions victim = some pos →
      notional pair.mark_px pos.size = .ok n →
      maint_margin n pair.cfg.maint_margin_bps = .ok mm →
      price_pnl pair.mark_px pos.entry_px pos.size pos.side = .ok a →
      funding_pnl pair.mark_px pos.size pos.side pair.cum_funding_bps
        pos.funding_index_open = .ok b →
      pos.margin + a + b < mm →
      liquidate (some pair) victim = .error .arithmetic) ∧
    (∀ (pair : Pair) (pos : Position) (h : Nat),
      health pair pos = .ok h → ¬ h < 0) := by
  refine ⟨liquidate_no_ok, ?_, ?_⟩
  · intro pair victim pos n mm a b hpos hn hmm ha hb hlt
    exact liquidate_of_health_err hpos (health_underflow hn hmm ha hb hlt)
  · intro pair pos h _
    exact Nat.not_lt_zero h

/-- Witness for C9 at the concrete under-margined market. -/
theorem c9_liquidate_never_succeeds_witness :
    liquidate (some pairUnder) 7 = .error .arithmetic :=
  c9_liquidate_never_succeeds.2.1 pairUnder 7 posUnder 1000 100 0 0
    rfl rfl rfl rfl rfl (by decide)

/-- C10: the cumulative funding index never decreases on any reachable
execution: `create_pair` initializes it to 0, and every successful entry
call either leaves it unchanged or adds a non-negative quantity (the
unsigned rate times the elapsed whole hours) — negative rates cannot occur
because the unsigned subtraction aborts the whole call first.  `liquidate`
never succeeds, so it never changes it either. -/
theorem c10_cum_funding_monotone :
    (∀ (ex : Bool) (ml im mm mf orc vrf ipx ts : Nat) (p : Pair),
      create_pair ex ml im mm mf orc vrf ipx ts = .ok p →
      p.cum_funding_bps = 0) ∧
    (∀ (p p' : Pair) (caller px : Nat),
      set_mark_price (some p) caller px = .ok p' →
      p.cum_funding_bps ≤ p'.cum_funding_bps) ∧
    (∀ (p p' : Pair) (caller fb seed now : Nat),
      push_funding (some p) caller fb seed now = .ok p' →
      p.cum_funding_bps ≤ p'.cum_funding_bps) ∧
    (∀ (p p' : Pair) (user size side lev margin epx : Nat),
      open_position (some p) user size side lev margin epx = .ok p' →
      p.cum_funding_bps ≤ p'.cum_funding_bps) ∧
    (∀ (p p' : Pair) (user stc eqr : Nat),
      close_position (some p) user stc = .ok (p', eqr) →
      p.cum_funding_bps ≤ p'.cum_funding_bps) ∧
    (∀ (st : Option Pair) (victim : Nat) (pr : Pair × Nat),
      liquidate st victim ≠ .ok pr) := by
  refine ⟨?_, ?_, ?_, ?_, ?_, liquidate_no_ok⟩
  · intro ex ml im mm mf orc vrf ipx ts p hok
    cases ex with
    | true => simp [create_pair] at hok
    | false =>
      simp only [create_pair, Bool.false_eq_true, if_false] at hok
      rw [← (Except.ok.injEq _ _).mp hok]
  · intro p p' caller px hok
    simp only [set_mark_price] at hok
    split_ifs at hok
    rw [← (Except.ok.injEq _ _).mp hok]
  · intro p p' caller fb seed now hok
    rcases push_funding_ok hok with ⟨rfl, -⟩ | ⟨-, -, -, hcum, -⟩
    · exact le_refl _
    · rw [hcum]; exact Nat.le_add_right _ _
  · intro p p' user size side lev margin epx hok
    obtain ⟨n, req, -, -, -, -, -, -, -, -, hpair⟩ := open_position_ok hok
    rw [hpair]
  · intro p p' user stc eqr hok
    cases hpv : p.positions user with
    | none => rw [close_position, hpv] at hok; simp at hok
    | some pos =>
      exact le_of_eq ((close_position_ok hpv hok).2.2.2.1).symm

/-- Witness for C10: a fresh pair has index 0, and a successful 2-hour
funding push from index 0 yields index 54 ≥ 0. -/
theorem c10_cum_funding_monotone_witness :
    pairFund.cum_funding_bps ≤ pairFundAfter.cum_funding_bps ∧
    pairFundAfter.cum_funding_bps = 54 :=
  ⟨c10_cum_funding_monotone.2.2.1 pairFund pairFundAfter 2 0 77 7200 rfl,
   rfl⟩

/-- C3: funding accrues only in whole-hour steps.  For an authorized push
with `dt = now - lastFundingTs` (clamped at 0 when `now ≤ lastFundingTs`):
if `dt < 3600` the market state is unchanged (whether the call returns or
aborts), and if `hours = dt / 3600 > 0` a successful push adds
`((seed mod (2·cap+1)) - cap) · hours` to the cumulative index and advances
the timestamp by exactly `hours · 3600`, leaving any sub-hour remainder for
a future call. -/
theorem c3_funding_quantization (p : Pair) (caller fb seed now dt hours : Nat)
    (hauth : caller = p.vrf_oracle)
    (hdt : dt = if now > p.last_funding_ts then now - p.last_funding_ts
                else 0)
    (hhours : hours = dt / 3600) :
    (dt < 3600 →
      applyRes p (push_funding (some p) caller fb seed now) = p) ∧
    (∀ p', push_funding (some p) caller fb seed now = .ok p' → 0 < hours →
      (p'.cum_funding_bps : ℤ) = (p.cum_funding_bps : ℤ) +
        (((seed % (p.cfg.max_funding_bps_hour * 2 + 1) : Nat) : ℤ) -
          (p.cfg.max_funding_bps_hour : ℤ)) * (hours : ℤ) ∧
      p'.last_funding_ts = p.last_funding_ts + hours * 3600) := by
  constructor
  · intro hlt3600
    cases hres : push_funding (some p) caller fb seed now with
    | error e => rfl
    | ok p' =>
      show p' = p
      rcases push_funding_ok hres with ⟨rfl, -⟩ | ⟨hnow, hh, -, -, -, -, -, -⟩
      · rfl
      · exfalso
        rw [if_pos hnow] at hdt
        have : 3600 ≤ now - p.last_funding_ts := by
          by_contra hc
          push_neg at hc
          rw [Nat.div_eq_of_lt hc] at hh
          exact lt_irrefl 0 hh
        omega
  · intro p' hok hpos
    rcases push_funding_ok hok with ⟨hpp, h0⟩ | ⟨hnow, -, hcap, hcum, hts, -, -, -⟩
    · exfalso
      have hdt' : dt = now - p.last_funding_ts ∨ dt = 0 := by
        split at hdt
        · exact Or.inl hdt
        · exact Or.inr hdt
      omega
    · rw [if_pos hnow] at hdt
      subst hdt
      subst hhours
      constructor
      · zify [hcap] at hcum
        exact_mod_cast hcum
      · rw [hts, Nat.mul_comm]

/-- Witness for C3: a 2-hour push with seed 77 (residue 77 ≥ cap 50) adds
`(77 - 50) · 2 = 54` to the index and advances the timestamp to 7200. -/
theorem c3_funding_quantization_witness :
    (pairFundAfter.cum_funding_bps : ℤ) = (pairFund.cum_funding_bps : ℤ) +
      (((77 % (pairFund.cfg.max_funding_bps_hour * 2 + 1) : Nat) : ℤ) -
        (pairFund.cfg.max_funding_bps_hour : ℤ)) * (2 : ℤ) ∧
    pairFundAfter.last_funding_ts = pairFund.last_funding_ts + 2 * 3600 :=
  (c3_funding_quantization pairFund 2 0 77 7200 7200 2 rfl (by decide)
    (by decide)).2 pairFundAfter rfl (by decide)

/-- C4: the required initial margin is the larger of `notional / leverageBps`
and `notional · initBps / 10000` under integer floor division, and (with the
preceding guards of `open_position` satisfied) an `open_position` whose
margin falls below this value fails with `invalid_argument(E_BAD_MARGIN)`. -/
theorem c4_required_margin_and_open_gate (nq lev init : Nat)
    (hlev : 0 < lev) (hprod : nq * init < U128) :
    required_init_margin nq lev init =
      .ok (max (nq / lev) (nq * init / 10000)) ∧
    (∀ (pair : Pair) (user size side margin epx req : Nat),
      side < 2 → 0 < size → lev ≤ pair.cfg.max_lev_bps →
      pair.cfg.init_margin_bps = init →
      pair.positions user = none →
      notional pair.mark_px size = .ok nq →
      required_init_margin nq lev init = .ok req →
      margin < req →
      open_position (some pair) user size side lev margin epx =
        .error (.invalidArgument E_BAD_MARGIN)) := by
  have hmax : required_init_margin nq lev init =
      .ok (max (nq / lev) (nq * init / 10000)) := by
    unfold required_init_margin
    rw [divChk_of_ne (Nat.pos_iff_ne_zero.mp hlev), chk128_of_lt hprod]
    simp only [ok_bind]
    rcases Nat.lt_or_ge (nq * init / 10000) (nq / lev) with h | h
    · rw [if_pos h, Nat.max_eq_left (le_of_lt h)]
    · rw [if_neg (not_lt.mpr h), Nat.max_eq_right h]
  refine ⟨hmax, ?_⟩
  intro pair user size side margin epx req h1 h2 h3 hinit hnone hn hreq hm
  simp only [open_position]
  rw [if_neg (not_not_intro h1), if_neg (not_not_intro h2),
    if_neg (not_not_intro ⟨hlev, h3⟩)]
  rw [if_neg (show ¬ tContains pair.positions user = true by
    simp [tContains, hnone])]
  rw [hn]
  simp only [ok_bind]
  rw [hinit, hreq]
  simp only [ok_bind]
  rw [if_neg (not_le.mpr hm)]

/-- Witness for C4 at the spec's example: `notional = 10000`,
`leverageBps = 5000`, `initBps = 2000` requires `max(2, 2000) = 2000`, and
opening 100 lots at mark 100 with margin 1999 < 2000 is rejected. -/
theorem c4_required_margin_and_open_gate_witness :
    required_init_margin 10000 5000 2000 =
      .ok (max (10000 / 5000) (10000 * 2000 / 10000)) ∧
    max (10000 / 5000) (10000 * 2000 / 10000) = 2000 ∧
    open_position (some pairFund) 9 100 0 5000 1999 0 =
      .error (.invalidArgument E_BAD_MARGIN) :=
  ⟨(c4_required_margin_and_open_gate 10000 5000 2000 (by decide)
      (by decide)).1,
   by decide,
   (c4_required_margin_and_open_gate 10000 5000 2000 (by decide)
      (by decide)).2 pairFund 9 100 0 1999 0 2000 (by decide) (by decide)
      (by decide) rfl rfl rfl rfl (by decide)⟩

/-- C7: the functions `price_pnl` and `funding_pnl` ignore the position side and return
the absolute movement magnitude scaled by size (a `u128`, hence always
non-negative), so positions of either side receive identical contributions
to `health`. -/
theorem c7_directionless_pnl (cur entry size s1 s2 px cnow copen : Nat) :
    price_pnl cur entry size s1 = price_pnl cur entry size s2 ∧
    funding_pnl px size s1 cnow copen = funding_pnl px size s2 cnow copen ∧
    (∀ (pair : Pair) (pos : Position) (sa sb : Nat),
      health pair { pos with side := sa } =
        health pair { pos with side := sb }) ∧
    (∀ v, price_pnl cur entry size s1 = .ok v →
      v = (max cur entry - min cur entry) * size) ∧
    (∀ v, funding_pnl px size s1 cnow copen = .ok v →
      v = px * size * (max cnow copen - min cnow copen) / 10000) := by
  refine ⟨rfl, rfl, fun pair pos sa sb => rfl, ?_, ?_⟩
  · intro v hv
    unfold price_pnl at hv
    obtain ⟨hveq, -⟩ := chk128_ok hv
    subst hveq
    congr 1
    rcases Nat.lt_or_ge entry cur with h | h
    · rw [if_pos h, Nat.max_eq_left (le_of_lt h), Nat.min_eq_right (le_of_lt h)]
    · rw [if_neg (not_lt.mpr h), Nat.max_eq_right h, Nat.min_eq_left h]
  · intro v hv
    unfold funding_pnl notional at hv
    cases hn : chk128 (px * size) with
    | error e => rw [hn] at hv; simp at hv
    | ok n =>
      rw [hn] at hv
      simp only [ok_bind] at hv
      obtain ⟨hnv, -⟩ := chk128_ok hn
      subst hnv
      cases hr : chk128 (px * size * (if cnow > copen then cnow - copen else copen - cnow)) with
      | error e => rw [hr] at hv; simp at hv
      | ok raw =>
        rw [hr] at hv
        simp only [ok_bind] at hv
        obtain ⟨hrv, -⟩ := chk128_ok hr
        subst hrv
        rw [← (Except.ok.injEq _ _).mp hv]
        congr 2
        rcases Nat.lt_or_ge copen cnow with h | h
        · rw [if_pos h, Nat.max_eq_left (le_of_lt h), Nat.min_eq_right (le_of_lt h)]
        · rw [if_neg (not_lt.mpr h), Nat.max_eq_right h, Nat.min_eq_left h]

/-- Witness for C7: a 10-tick move on 10 lots yields magnitude 100 for a
long (side 0) exactly as for a short, and a 2-bps funding drift on notional
1000 yields `2000 / 10000 = 0`. -/
theorem c7_directionless_pnl_witness :
    (100 : Nat) = (max 100 90 - min 100 90) * 10 ∧
    (0 : Nat) = 100 * 10 * (max 5 3 - min 5 3) / 10000 :=
  ⟨(c7_directionless_pnl 100 90 10 0 1 100 5 3).2.2.2.1 100 rfl,
   (c7_directionless_pnl 100 90 10 0 1 100 5 3).2.2.2.2 0 rfl⟩

/-- C5: the entry `close_position` fails `not_found(E_POS_NOT_FOUND)` when the
position is missing and `invalid_argument(E_BAD_QTY)` when `sizeToClose` is
0 or exceeds the position size; a successful close releases
`floor(margin · sizeToClose / size)` of margin plus the (directionless) PnL
of the closed portion, shrinks size and margin accordingly, and removes the
position record exactly when the remaining size is 0 — in particular a full
close always deletes it. -/
theorem c5_close_position_spec (pair : Pair) (user stc : Nat) :
    (pair.positions user = none →
      close_position (some pair) user stc =
        .error (.notFound E_POS_NOT_FOUND)) ∧
    (∀ pos, pair.positions user = some pos →
      stc = 0 ∨ pos.size < stc →
      close_position (some pair) user stc =
        .error (.invalidArgument E_BAD_QTY)) ∧
    (∀ pos pair' eqr, pair.positions user = some pos →
      close_position (some pair) user stc = .ok (pair', eqr) →
      0 < stc ∧ stc ≤ pos.size ∧
      eqr = pos.margin * stc / pos.size +
        ((if pair.mark_px > pos.entry_px then pair.mark_px - pos.entry_px else pos.entry_px - pair.mark_px) * stc +
         pair.mark_px * stc * (if pair.cum_funding_bps > pos.funding_index_open then pair.cum_funding_bps - pos.funding_index_open else pos.funding_index_open - pair.cum_funding_bps) / 10000) ∧
      pair'.positions user =
        (if pos.size - stc = 0 then none
         else some ⟨pos.side, pos.size - stc, pos.entry_px, pos.margin - pos.margin * stc / pos.size, pos.lev_bps, pos.funding_index_open⟩)) := by
  refine ⟨?_, ?_, ?_⟩
  · intro hnone
    rw [close_position, hnone]
  · intro pos hpos hbad
    simp only [close_position, hpos]
    rcases hbad with h0 | hgt
    · rw [if_pos (by simp [h0])]
    · rw [if_neg (not_not_intro (by omega)),
        if_pos (not_le.mpr hgt)]
  · intro pos pair' eqr hpos hok
    obtain ⟨h1, h2, h3, -, -, h6⟩ := close_position_ok hpos hok
    exact ⟨h1, h2, h3, h6⟩

/-- Witness for C5 at the spec's example: margin 7, size 3, closing 1 lot
at unchanged price and funding gives margin share `floor(7/3) = 2` and
leaves a position of size 2 with margin 5. -/
theorem c5_close_position_spec_witness :
    0 < 1 ∧ 1 ≤ 3 ∧
    (2 : Nat) = 7 * 1 / 3 + (0 * 1 + 100 * 1 * 0 / 10000) ∧
    pairCloseAfter.positions 7 = some ⟨0, 2, 100, 5, 5000, 0⟩ :=
  (c5_close_position_spec pairClose 7 1).2.2 posClose pairCloseAfter 2
    rfl rfl

/-- C6: round-trip no-op.  After any successful `open_position` (of `u64`
sized inputs), immediately closing the full size — while the mark price
still equals the entry price and the cumulative funding index still equals
the position's snapshot, which is exactly the state `open_position`
produced — succeeds, releases exactly the locked margin as equity, and
deletes the position. -/
theorem c6_round_trip_equity (pair pair' : Pair)
    (user size side lev margin epx : Nat)
    (hm : margin < U64) (hs : size < U64)
    (hok : open_position (some pair) user size side lev margin epx
      = .ok pair') :
    Except.map (fun r => (r.2, r.1.positions user))
      (close_position (some pair') user size) = .ok (margin, none) := by
  obtain ⟨n, req, h1, h2, h3a, h3b, hnone, hn, hreq, h5, hpair⟩ :=
    open_position_ok hok
  subst hpair
  unfold notional at hn
  obtain ⟨-, hnU⟩ := chk128_ok hn
  have hU6 : (0 : Nat) < U128 := by decide
  have hU64U : U64 * U64 = U128 := by decide
  have hmulU : margin * size < U128 := by
    rw [← hU64U]
    exact Nat.mul_lt_mul'' hm hs
  have hms : margin * size / size = margin :=
    Nat.mul_div_cancel _ h2
  have hpp : price_pnl pair.mark_px pair.mark_px size side = .ok 0 := by
    unfold price_pnl
    simp only [lt_self_iff_false, if_false, Nat.sub_self, Nat.zero_mul]
    exact chk128_of_lt hU6
  have hpf : funding_pnl pair.mark_px size side pair.cum_funding_bps
      pair.cum_funding_bps = .ok 0 := by
    unfold funding_pnl notional
    rw [chk128_of_lt hnU]
    simp only [ok_bind, lt_self_iff_false, if_false, Nat.sub_self,
      Nat.mul_zero]
    rw [chk128_of_lt hU6]
    simp only [ok_bind, Nat.zero_div]
  simp only [close_position, tAdd, eq_self_iff_true, if_true]
  rw [if_neg (not_not_intro h2), if_neg (not_not_intro (le_refl size))]
  rw [chk128_of_lt hmulU]
  simp only [ok_bind]
  rw [divChk_of_ne (Nat.pos_iff_ne_zero.mp h2)]
  simp only [ok_bind]
  rw [hms, chk64_of_lt hm]
  simp only [ok_bind]
  rw [hpp]
  simp only [ok_bind]
  rw [hpf]
  simp only [ok_bind]
  rw [Nat.add_zero, chk128_of_lt hU6]
  simp only [ok_bind]
  rw [Nat.add_zero, chk128_of_lt (lt_trans hm (by decide : U64 < U128))]
  simp only [ok_bind]
  rw [if_pos (Nat.zero_le margin), subChk_of_le (le_refl size),
    subChk_of_le (le_refl margin)]
  simp only [ok_bind]
  rw [if_pos (Nat.sub_self size)]
  simp [Except.map, tRemove]

/-- Witness for C6: opening 100 lots at mark 100 with margin 2000 and
closing all 100 immediately releases exactly 2000 and deletes the
position. -/
theorem c6_round_trip_equity_witness :
    Except.map (fun r => (r.2, r.1.positions 9))
      (close_position (some pairOpened) 9 100) = .ok (2000, none) :=
  c6_round_trip_equity pairFund pairOpened 9 100 0 5000 2000 0
    (by decide) (by decide) rfl

end PerpCore
